import Mathlib

/-!
Shallow embedding of the five rate limiters of `ratelimit.py`.

Wall-clock times, rates and token counts are rationals (Python floats);
Python `int` values are `ℤ`.  Each limiter's `is_allowed` is a pure step
function taking the configuration, the per-key state and the current time,
and returning the boolean decision together with the updated state.  The
per-limiter `defaultdict` key-to-state mapping is modelled as an
association list with the defaultdict access (which inserts the default
record on a miss) made explicit.
-/

/-- Truncation toward zero, the behaviour of Python `int()` on a float. -/
def ratTrunc (x : ℚ) : ℤ := if 0 ≤ x then Int.floor x else Int.ceil x

/-! ### Fixed Window -/

structure FWConfig where
  limit : ℤ
  window_size : ℚ
  deriving DecidableEq

structure FWState where
  count : ℤ
  window_start : ℤ
  deriving DecidableEq

/-- Default per-key record of the fixed-window defaultdict:
`{'count': 0, 'window_start': 0}`. -/
def FWState.baseline : FWState := ⟨0, 0⟩

/-- `FixedWindowRateLimiter.__init__`: stores the two arguments, nothing else. -/
def fwInit (limit : ℤ) (window_size : ℚ) : FWConfig := ⟨limit, window_size⟩

/-- `FixedWindowRateLimiter.is_allowed` on one key's state. -/
def fwIsAllowed (cfg : FWConfig) (s : FWState) (now : ℚ) : Bool × FWState :=
  let current_window : ℤ := Int.floor (now / cfg.window_size)
  let s1 : FWState :=
    if s.window_start = current_window then s else ⟨0, current_window⟩
  if s1.count < cfg.limit then (true, ⟨s1.count + 1, s1.window_start⟩)
  else (false, s1)

structure FWStats where
  requests_made : ℤ
  limit : ℤ
  remaining : ℤ
  window_start : ℤ
  deriving DecidableEq

/-- `FixedWindowRateLimiter.get_stats` on one key's record. -/
def fwGetStats (cfg : FWConfig) (s : FWState) : FWStats :=
  ⟨s.count, cfg.limit, max 0 (cfg.limit - s.count), s.window_start⟩

/-- Decisions of a sequence of `is_allowed` calls for one key. -/
def fwRunBools (cfg : FWConfig) (s : FWState) : List ℚ → List Bool
  | [] => []
  | t :: rest =>
    let r := fwIsAllowed cfg s t
    r.1 :: fwRunBools cfg r.2 rest

/-! ### Sliding Window Log -/

structure SWLConfig where
  limit : ℤ
  window_size : ℚ
  deriving DecidableEq

/-- `SlidingWindowLogRateLimiter.__init__`. -/
def swlInit (limit : ℤ) (window_size : ℚ) : SWLConfig := ⟨limit, window_size⟩

/-- The `while request_log and request_log[0] < cutoff_time: popleft()` loop. -/
def swlPurge (cutoff : ℚ) : List ℚ → List ℚ
  | [] => []
  | t :: rest => if t < cutoff then swlPurge cutoff rest else t :: rest

/-- `SlidingWindowLogRateLimiter.is_allowed` on one key's timestamp log. -/
def swlIsAllowed (cfg : SWLConfig) (log : List ℚ) (now : ℚ) : Bool × List ℚ :=
  let log1 := swlPurge (now - cfg.window_size) log
  if (log1.length : ℤ) < cfg.limit then (true, log1 ++ [now])
  else (false, log1)

structure SWLStats where
  requests_made : ℤ
  limit : ℤ
  remaining : ℤ
  oldest_request : Option ℚ
  deriving DecidableEq

/-- `SlidingWindowLogRateLimiter.get_stats` on one key's log. -/
def swlGetStats (cfg : SWLConfig) (log : List ℚ) (now : ℚ) : SWLStats :=
  let active : ℤ := ((log.filter (fun t => now - cfg.window_size ≤ t)).length : ℤ)
  ⟨active, cfg.limit, max 0 (cfg.limit - active), log.head?⟩

/-- Decisions of a sequence of `is_allowed` calls for one key. -/
def swlRunBools (cfg : SWLConfig) (log : List ℚ) : List ℚ → List Bool
  | [] => []
  | t :: rest =>
    let r := swlIsAllowed cfg log t
    r.1 :: swlRunBools cfg r.2 rest

/-! ### Sliding Window Counter -/

structure SWCConfig where
  limit : ℤ
  window_size : ℚ
  deriving DecidableEq

structure SWCState where
  current : ℤ
  previous : ℤ
  current_start : ℤ
  deriving DecidableEq

/-- Default per-key record `{'current': 0, 'previous': 0, 'current_start': 0}`. -/
def SWCState.baseline : SWCState := ⟨0, 0, 0⟩

/-- `SlidingWindowCounterRateLimiter.__init__`. -/
def swcInit (limit : ℤ) (window_size : ℚ) : SWCConfig := ⟨limit, window_size⟩

/-- The weighted count of the sliding-window counter:
`weight = 1 - (now - window_index*window_size)/window_size` and
`weighted_count = previous*weight + current`, with
`window_index = int(now // window_size)`. -/
def swcWeightedCount (window_size : ℚ) (previous current : ℤ) (now : ℚ) : ℚ :=
  let current_window : ℤ := Int.floor (now / window_size)
  let time_in_current_window : ℚ := now - (current_window : ℚ) * window_size
  let weight : ℚ := 1 - time_in_current_window / window_size
  (previous : ℚ) * weight + (current : ℚ)

/-- `SlidingWindowCounterRateLimiter.is_allowed` on one key's state. -/
def swcIsAllowed (cfg : SWCConfig) (s : SWCState) (now : ℚ) : Bool × SWCState :=
  let current_window : ℤ := Int.floor (now / cfg.window_size)
  let s1 : SWCState :=
    if s.current_start = current_window then s
    else
      let prev : ℤ := if s.current_start = current_window - 1 then s.current else 0
      ⟨0, prev, current_window⟩
  let weighted_count := swcWeightedCount cfg.window_size s1.previous s1.current now
  if weighted_count < (cfg.limit : ℚ) then
    (true, ⟨s1.current + 1, s1.previous, s1.current_start⟩)
  else (false, s1)

structure SWCStats where
  weighted_count : ℚ
  current_window_requests : ℤ
  previous_window_requests : ℤ
  limit : ℤ
  remaining : ℚ
  deriving DecidableEq

/-- `SlidingWindowCounterRateLimiter.get_stats` on one key's record
(no window rollover is applied there). -/
def swcGetStats (cfg : SWCConfig) (s : SWCState) (now : ℚ) : SWCStats :=
  let wc := swcWeightedCount cfg.window_size s.previous s.current now
  ⟨wc, s.current, s.previous, cfg.limit, max 0 ((cfg.limit : ℚ) - wc)⟩

/-! ### Token Bucket -/

structure TBConfig where
  capacity : ℤ
  refill_rate : ℚ
  deriving DecidableEq

structure TBState where
  tokens : ℚ
  last_refill : ℚ
  deriving DecidableEq

/-- `TokenBucketRateLimiter.__init__`. -/
def tbInit (capacity : ℤ) (refill_rate : ℚ) : TBConfig := ⟨capacity, refill_rate⟩

/-- Default per-key record `{'tokens': capacity, 'last_refill': time.time()}`,
where `t0` is the wall-clock time at which the record is inserted. -/
def tbBaseline (cfg : TBConfig) (t0 : ℚ) : TBState := ⟨(cfg.capacity : ℚ), t0⟩

/-- `TokenBucketRateLimiter.is_allowed` on one key's bucket. -/
def tbIsAllowed (cfg : TBConfig) (s : TBState) (now : ℚ) (tokens_requested : ℤ) :
    Bool × TBState :=
  let time_passed := now - s.last_refill
  let tokens_to_add := time_passed * cfg.refill_rate
  let tokens1 := min (cfg.capacity : ℚ) (s.tokens + tokens_to_add)
  if (tokens_requested : ℚ) ≤ tokens1 then
    (true, ⟨tokens1 - (tokens_requested : ℚ), now⟩)
  else (false, ⟨tokens1, now⟩)

structure TBStats where
  available_tokens : ℚ
  capacity : ℤ
  refill_rate : ℚ
  last_refill : ℚ
  deriving DecidableEq

/-- `TokenBucketRateLimiter.get_stats` on one key's bucket. -/
def tbGetStats (cfg : TBConfig) (s : TBState) : TBStats :=
  ⟨s.tokens, cfg.capacity, cfg.refill_rate, s.last_refill⟩

/-- One `is_allowed` call described by its (time, tokens_requested) pair. -/
def tbStep (cfg : TBConfig) (s : TBState) (c : ℚ × ℤ) : TBState :=
  (tbIsAllowed cfg s c.1 c.2).2

/-- State after a sequence of `is_allowed` calls for one key. -/
def tbRun (cfg : TBConfig) (s : TBState) (calls : List (ℚ × ℤ)) : TBState :=
  calls.foldl (tbStep cfg) s

/-- Call times are non-decreasing, the first one no earlier than `t0`. -/
def timesValid : ℚ → List (ℚ × ℤ) → Bool
  | _, [] => true
  | t0, c :: rest => decide (t0 ≤ c.1) && timesValid c.1 rest

/-! ### Leaky Bucket -/

structure LBConfig where
  capacity : ℤ
  leak_rate : ℚ
  deriving DecidableEq

structure LBState where
  queue : List ℚ
  last_leak : ℚ
  deriving DecidableEq

/-- `LeakyBucketRateLimiter.__init__`. -/
def lbInit (capacity : ℤ) (leak_rate : ℚ) : LBConfig := ⟨capacity, leak_rate⟩

/-- Default per-key record `{'queue': deque(), 'last_leak': time.time()}`. -/
def lbBaseline (t0 : ℚ) : LBState := ⟨[], t0⟩

/-- `LeakyBucketRateLimiter.is_allowed` on one key's bucket; the front of
the list is the front of the deque. -/
def lbIsAllowed (cfg : LBConfig) (s : LBState) (now : ℚ) : Bool × LBState :=
  let time_passed := now - s.last_leak
  let requests_to_leak : ℤ := ratTrunc (time_passed * cfg.leak_rate)
  let queue1 := s.queue.drop (min requests_to_leak (s.queue.length : ℤ)).toNat
  if (queue1.length : ℤ) < cfg.capacity then (true, ⟨queue1 ++ [now], now⟩)
  else (false, ⟨queue1, now⟩)

structure LBStats where
  queue_size : ℤ
  capacity : ℤ
  leak_rate : ℚ
  last_leak : ℚ
  deriving DecidableEq

/-- `LeakyBucketRateLimiter.get_stats` on one key's bucket. -/
def lbGetStats (cfg : LBConfig) (s : LBState) : LBStats :=
  ⟨(s.queue.length : ℤ), cfg.capacity, cfg.leak_rate, s.last_leak⟩

/-- State after a sequence of `is_allowed` calls for one key. -/
def lbRun (cfg : LBConfig) (s : LBState) : List ℚ → LBState
  | [] => s
  | t :: rest => lbRun cfg (lbIsAllowed cfg s t).2 rest

/-! ### The `defaultdict` key-to-state mapping -/

/-- Lookup in an association list (dictionary access hit/miss test). -/
def dictFind {α : Type} (k : String) : List (String × α) → Option α
  | [] => none
  | (k', v) :: rest => if k' = k then some v else dictFind k rest

/-- Python `defaultdict.__getitem__`: returns the stored value, or inserts
and returns the default on a miss.  The second component is the mapping
after the access. -/
def dictGet {α : Type} (k : String) (d : α) (m : List (String × α)) :
    α × List (String × α) :=
  match dictFind k m with
  | some v => (v, m)
  | none => (d, m ++ [(k, d)])

structure FWLimiter where
  cfg : FWConfig
  counters : List (String × FWState)
  deriving DecidableEq

/-- `FixedWindowRateLimiter.get_stats`: the `self.counters[key]` defaultdict
access, then the pure snapshot.  Returns the snapshot and the limiter after
the call. -/
def FWLimiter.get_stats (L : FWLimiter) (key : String) : FWStats × FWLimiter :=
  let a := dictGet key FWState.baseline L.counters
  (fwGetStats L.cfg a.1, ⟨L.cfg, a.2⟩)

structure SWLLimiter where
  cfg : SWLConfig
  logs : List (String × List ℚ)
  deriving DecidableEq

/-- `SlidingWindowLogRateLimiter.get_stats` at limiter level. -/
def SWLLimiter.get_stats (L : SWLLimiter) (key : String) (now : ℚ) :
    SWLStats × SWLLimiter :=
  let a := dictGet key ([] : List ℚ) L.logs
  (swlGetStats L.cfg a.1 now, ⟨L.cfg, a.2⟩)

structure SWCLimiter where
  cfg : SWCConfig
  windows : List (String × SWCState)
  deriving DecidableEq

/-- `SlidingWindowCounterRateLimiter.get_stats` at limiter level. -/
def SWCLimiter.get_stats (L : SWCLimiter) (key : String) (now : ℚ) :
    SWCStats × SWCLimiter :=
  let a := dictGet key SWCState.baseline L.windows
  (swcGetStats L.cfg a.1 now, ⟨L.cfg, a.2⟩)

structure TBLimiter where
  cfg : TBConfig
  buckets : List (String × TBState)
  deriving DecidableEq

/-- `TokenBucketRateLimiter.get_stats` at limiter level; `now` is the
wall-clock time, used only to build the default record on a miss. -/
def TBLimiter.get_stats (L : TBLimiter) (key : String) (now : ℚ) :
    TBStats × TBLimiter :=
  let a := dictGet key (tbBaseline L.cfg now) L.buckets
  (tbGetStats L.cfg a.1, ⟨L.cfg, a.2⟩)

structure LBLimiter where
  cfg : LBConfig
  buckets : List (String × LBState)
  deriving DecidableEq

/-- `LeakyBucketRateLimiter.get_stats` at limiter level; `now` is used only
to build the default record on a miss. -/
def LBLimiter.get_stats (L : LBLimiter) (key : String) (now : ℚ) :
    LBStats × LBLimiter :=
  let a := dictGet key (lbBaseline now) L.buckets
  (lbGetStats L.cfg a.1, ⟨L.cfg, a.2⟩)

/-! ### Theorems -/

/-- C3: with `limit=5, window_size=10`, five requests at t=9.9 and five more
at t=10.1 on a fresh key are all admitted: the double-burst at the window
boundary is permitted. -/
theorem fixedWindow_double_burst :
    fwRunBools (fwInit 5 10) FWState.baseline
      (List.replicate 5 (99/10 : ℚ) ++ List.replicate 5 (101/10 : ℚ)) =
    List.replicate 10 true := by
  norm_num [fwRunBools, fwIsAllowed, fwInit, FWState.baseline, List.replicate]

/-- C4: with `limit=3, window_size=5` on a fresh key, three calls at t=0 are
admitted, a fourth at t=1 is denied, and a call at t=6 is admitted again
because the oldest stored timestamp has expired. -/
theorem slidingWindowLog_accuracy :
    swlRunBools (swlInit 3 5) [] [0, 0, 0, 1, 6] =
      [true, true, true, false, true] := by
  norm_num [swlRunBools, swlIsAllowed, swlInit, swlPurge]

/-- C6: a token-bucket request for more tokens than the capacity is reported
as an ordinary rejection (`false`), whatever the key's state and the time. -/
theorem tokenBucket_cost_exceeding_capacity_rejected
    (cfg : TBConfig) (s : TBState) (now : ℚ) (cost : ℤ)
    (h : cfg.capacity < cost) :
    (tbIsAllowed cfg s now cost).1 = false := by
  have hQ : (cfg.capacity : ℚ) < (cost : ℚ) := by exact_mod_cast h
  have hmin : min (cfg.capacity : ℚ)
      (s.tokens + (now - s.last_refill) * cfg.refill_rate) ≤ (cfg.capacity : ℚ) :=
    min_le_left _ _
  simp only [tbIsAllowed]
  rw [if_neg (by push_neg; linarith)]

theorem tokenBucket_cost_exceeding_capacity_rejected_witness :
    (5:ℤ) < 6 ∧ (tbIsAllowed ⟨5, 1⟩ ⟨5, 0⟩ 0 6).1 = false :=
  ⟨by decide, tokenBucket_cost_exceeding_capacity_rejected ⟨5, 1⟩ ⟨5, 0⟩ 0 6 (by decide)⟩

/-- C5: with a positive window size and nonnegative counters, the weighted
count `previous*weight + current` computed by `get_stats` (and, identically,
inside `is_allowed`) lies between `current` and `current + previous`. -/
theorem swc_weighted_count_bounds
    (cfg : SWCConfig) (s : SWCState) (now : ℚ)
    (hW : 0 < cfg.window_size) (hp : 0 ≤ s.previous) (hc : 0 ≤ s.current) :
    (s.current : ℚ) ≤ (swcGetStats cfg s now).weighted_count ∧
    (swcGetStats cfg s now).weighted_count ≤ (s.current : ℚ) + (s.previous : ℚ) := by
  have hW0 : cfg.window_size ≠ 0 := ne_of_gt hW
  have key : (now - (Int.floor (now / cfg.window_size) : ℚ) * cfg.window_size) /
      cfg.window_size = Int.fract (now / cfg.window_size) := by
    rw [sub_div, mul_div_assoc, div_self hW0, mul_one, Int.fract]
  have hf0 : 0 ≤ Int.fract (now / cfg.window_size) := Int.fract_nonneg _
  have hf1 : Int.fract (now / cfg.window_size) < 1 := Int.fract_lt_one _
  have hpQ : (0:ℚ) ≤ (s.previous : ℚ) := by exact_mod_cast hp
  simp only [swcGetStats, swcWeightedCount, key]
  constructor
  · have h1 : 0 ≤ (s.previous : ℚ) * (1 - Int.fract (now / cfg.window_size)) :=
      mul_nonneg hpQ (by linarith)
    linarith
  · have h2 : (s.previous : ℚ) * (1 - Int.fract (now / cfg.window_size)) ≤
        (s.previous : ℚ) * 1 :=
      mul_le_mul_of_nonneg_left (by linarith) hpQ
    linarith

theorem swc_weighted_count_bounds_witness :
    0 < (5:ℚ) ∧ 0 ≤ (2:ℤ) ∧ 0 ≤ (3:ℤ) ∧
    (((3:ℤ) : ℚ) ≤ (swcGetStats ⟨10, 5⟩ ⟨3, 2, 0⟩ 7).weighted_count ∧
      (swcGetStats ⟨10, 5⟩ ⟨3, 2, 0⟩ 7).weighted_count ≤ ((3:ℤ) : ℚ) + ((2:ℤ) : ℚ)) :=
  ⟨by decide, by decide, by decide,
    swc_weighted_count_bounds ⟨10, 5⟩ ⟨3, 2, 0⟩ 7 (by decide) (by decide) (by decide)⟩

/-- Helper: the concrete window index used by the C10 witness. -/
theorem floor_twentyfive_tenths : Int.floor ((25:ℚ) / 10) = 2 := by norm_num

/-- C10: `FixedWindowRateLimiter.get_stats` applies no window rollover: a
record with `n` admissions from an old window still reports
`requests_made = n` and `remaining = max 0 (limit - n)`, although the next
`is_allowed` call at a time in a different window resets and admits. -/
theorem fw_get_stats_no_rollover
    (cfg : FWConfig) (n w : ℤ) (now : ℚ)
    (hw : w ≠ Int.floor (now / cfg.window_size)) (hl : 1 ≤ cfg.limit) :
    (fwGetStats cfg ⟨n, w⟩).requests_made = n ∧
    (fwGetStats cfg ⟨n, w⟩).remaining = max 0 (cfg.limit - n) ∧
    (fwIsAllowed cfg ⟨n, w⟩ now).1 = true := by
  refine ⟨rfl, rfl, ?_⟩
  have h0 : (0:ℤ) < cfg.limit := by omega
  simp only [fwIsAllowed]
  rw [if_neg hw]
  simp [h0]

theorem fw_get_stats_no_rollover_witness :
    (0:ℤ) ≠ Int.floor ((25:ℚ) / 10) ∧ (1:ℤ) ≤ 5 ∧
    ((fwGetStats ⟨5, 10⟩ ⟨5, 0⟩).requests_made = 5 ∧
      (fwGetStats ⟨5, 10⟩ ⟨5, 0⟩).remaining = max 0 ((5:ℤ) - 5) ∧
      (fwIsAllowed ⟨5, 10⟩ ⟨5, 0⟩ 25).1 = true) :=
  ⟨by rw [floor_twentyfive_tenths]; decide, by decide,
    fw_get_stats_no_rollover ⟨5, 10⟩ 5 0 25
      (by rw [show ((⟨5, 10⟩ : FWConfig)).window_size = 10 from rfl,
              floor_twentyfive_tenths]; decide)
      (by decide)⟩

/-- C7: the first `is_allowed` call for a never-seen key (lazily created
with its baseline record) is admitted by every one of the five strategies
whenever the limit/capacity is at least 1. -/
theorem first_call_on_fresh_key_admitted
    (limit capacity : ℤ) (window_size rate t0 now : ℚ)
    (hl : 1 ≤ limit) (hcap : 1 ≤ capacity) (hr : 0 ≤ rate) (ht : t0 ≤ now) :
    (fwIsAllowed ⟨limit, window_size⟩ FWState.baseline now).1 = true ∧
    (swlIsAllowed ⟨limit, window_size⟩ [] now).1 = true ∧
    (swcIsAllowed ⟨limit, window_size⟩ SWCState.baseline now).1 = true ∧
    (tbIsAllowed ⟨capacity, rate⟩ (tbBaseline ⟨capacity, rate⟩ t0) now 1).1 = true ∧
    (lbIsAllowed ⟨capacity, rate⟩ (lbBaseline t0) now).1 = true := by
  have h0 : (0:ℤ) < limit := by omega
  have h0c : (0:ℤ) < capacity := by omega
  refine ⟨?_, ?_, ?_, ?_, ?_⟩
  · simp [fwIsAllowed, FWState.baseline, apply_ite FWState.count, h0]
  · simp [swlIsAllowed, swlPurge, h0]
  · have h0Q : (0:ℚ) < (limit : ℚ) := by exact_mod_cast h0
    simp [swcIsAllowed, SWCState.baseline, swcWeightedCount,
      apply_ite SWCState.previous, apply_ite SWCState.current, h0Q]
  · have hadd : ((capacity:ℤ):ℚ) ≤ ((capacity:ℤ):ℚ) + (now - t0) * rate :=
      le_add_of_nonneg_right (mul_nonneg (sub_nonneg.mpr ht) hr)
    have h1 : ((1:ℤ):ℚ) ≤ ((capacity:ℤ):ℚ) := by exact_mod_cast hcap
    simp only [tbIsAllowed, tbBaseline, min_eq_left hadd]
    rw [if_pos h1]
  · simp [lbIsAllowed, lbBaseline, h0c]

theorem first_call_on_fresh_key_admitted_witness :
    (1:ℤ) ≤ 4 ∧ (1:ℤ) ≤ 6 ∧ (0:ℚ) ≤ 2 ∧ (3:ℚ) ≤ 7 ∧
    ((fwIsAllowed ⟨4, 60⟩ FWState.baseline 7).1 = true ∧
      (swlIsAllowed ⟨4, 60⟩ [] 7).1 = true ∧
      (swcIsAllowed ⟨4, 60⟩ SWCState.baseline 7).1 = true ∧
      (tbIsAllowed ⟨6, 2⟩ (tbBaseline ⟨6, 2⟩ 3) 7 1).1 = true ∧
      (lbIsAllowed ⟨6, 2⟩ (lbBaseline 3) 7).1 = true) :=
  ⟨by decide, by decide, by decide, by decide,
    first_call_on_fresh_key_admitted 4 6 60 2 3 7
      (by decide) (by decide) (by decide) (by decide)⟩

/-- Helper: one token-bucket call keeps the tokens in `[0, capacity]` and
stamps `last_refill` with the call time. -/
theorem tbStep_inv (cfg : TBConfig) (s : TBState) (now : ℚ) (cost : ℤ)
    (hcap : 0 < cfg.capacity) (hrate : 0 ≤ cfg.refill_rate)
    (h0 : 0 ≤ s.tokens) (hnow : s.last_refill ≤ now) (hcost : 1 ≤ cost) :
    (0 ≤ (tbIsAllowed cfg s now cost).2.tokens ∧
      (tbIsAllowed cfg s now cost).2.tokens ≤ (cfg.capacity : ℚ)) ∧
    (tbIsAllowed cfg s now cost).2.last_refill = now := by
  have hcapQ : (0:ℚ) < (cfg.capacity : ℚ) := by exact_mod_cast hcap
  have hcostQ : (1:ℚ) ≤ (cost : ℚ) := by exact_mod_cast hcost
  have hadd : 0 ≤ (now - s.last_refill) * cfg.refill_rate :=
    mul_nonneg (sub_nonneg.mpr hnow) hrate
  have hminle : min (cfg.capacity : ℚ)
      (s.tokens + (now - s.last_refill) * cfg.refill_rate) ≤ (cfg.capacity : ℚ) :=
    min_le_left _ _
  have hminpos : 0 ≤ min (cfg.capacity : ℚ)
      (s.tokens + (now - s.last_refill) * cfg.refill_rate) :=
    le_min (le_of_lt hcapQ) (by linarith)
  simp only [tbIsAllowed]
  split
  · next hcond =>
    dsimp only
    exact ⟨⟨by linarith, by linarith⟩, rfl⟩
  · dsimp only
    exact ⟨⟨hminpos, hminle⟩, rfl⟩

/-- Helper: the tokens invariant holds after every prefix of a call trace
with non-decreasing times and positive costs. -/
theorem tbRun_take_inv (cfg : TBConfig)
    (hcap : 0 < cfg.capacity) (hrate : 0 ≤ cfg.refill_rate) :
    ∀ (calls : List (ℚ × ℤ)) (s : TBState),
      0 ≤ s.tokens → s.tokens ≤ (cfg.capacity : ℚ) →
      timesValid s.last_refill calls = true →
      (∀ c ∈ calls, 1 ≤ c.2) →
      ∀ i : ℕ,
        0 ≤ (tbRun cfg s (calls.take i)).tokens ∧
        (tbRun cfg s (calls.take i)).tokens ≤ (cfg.capacity : ℚ) := by
  intro calls
  induction calls with
  | nil =>
    intro s h0 h1 _ _ i
    simpa [tbRun] using ⟨h0, h1⟩
  | cons c rest ih =>
    intro s h0 h1 htv hcosts i
    rw [timesValid, Bool.and_eq_true, decide_eq_true_eq] at htv
    obtain ⟨hnow, htvrest⟩ := htv
    match i with
    | 0 => simpa [tbRun] using ⟨h0, h1⟩
    | (i + 1) =>
      have hstep := tbStep_inv cfg s c.1 c.2 hcap hrate h0 hnow
        (hcosts c (List.mem_cons_self c rest))
      have hrw : tbRun cfg s ((c :: rest).take (i + 1)) =
          tbRun cfg (tbStep cfg s c) (rest.take i) := by
        simp [tbRun, List.take_succ_cons]
      rw [hrw]
      exact ih (tbStep cfg s c) hstep.1.1 hstep.1.2
        (by rw [show (tbStep cfg s c).last_refill = c.1 from hstep.2]; exact htvrest)
        (fun c' hc' => hcosts c' (List.mem_cons_of_mem c hc')) i

/-- C1: a token bucket created with positive capacity and refill rate keeps
the per-key tokens value inside `[0, capacity]` after every call of a trace
of `is_allowed` calls with positive integer costs at non-decreasing times. -/
theorem tokenBucket_tokens_in_range
    (cfg : TBConfig) (t0 : ℚ) (calls : List (ℚ × ℤ)) (i : ℕ)
    (hcap : 0 < cfg.capacity) (hrate : 0 < cfg.refill_rate)
    (htimes : timesValid t0 calls = true)
    (hcost : ∀ c ∈ calls, 1 ≤ c.2) :
    0 ≤ (tbRun cfg (tbBaseline cfg t0) (calls.take i)).tokens ∧
    (tbRun cfg (tbBaseline cfg t0) (calls.take i)).tokens ≤ (cfg.capacity : ℚ) :=
  tbRun_take_inv cfg hcap (le_of_lt hrate) calls (tbBaseline cfg t0)
    (by simp only [tbBaseline]; exact_mod_cast le_of_lt hcap)
    (le_refl _) htimes hcost i

theorem tokenBucket_tokens_in_range_witness :
    0 < (5:ℤ) ∧ 0 < (1:ℚ) ∧
    timesValid 0 [((1:ℚ), (1:ℤ)), ((2:ℚ), (7:ℤ))] = true ∧
    (∀ c ∈ [((1:ℚ), (1:ℤ)), ((2:ℚ), (7:ℤ))], 1 ≤ c.2) ∧
    (0 ≤ (tbRun ⟨5, 1⟩ (tbBaseline ⟨5, 1⟩ 0)
        ([((1:ℚ), (1:ℤ)), ((2:ℚ), (7:ℤ))].take 2)).tokens ∧
      (tbRun ⟨5, 1⟩ (tbBaseline ⟨5, 1⟩ 0)
        ([((1:ℚ), (1:ℤ)), ((2:ℚ), (7:ℤ))].take 2)).tokens ≤ ((5:ℤ) : ℚ)) :=
  ⟨by decide, by decide, by decide, by decide,
    tokenBucket_tokens_in_range ⟨5, 1⟩ 0 [((1:ℚ), (1:ℤ)), ((2:ℚ), (7:ℤ))] 2
      (by decide) (by decide) (by decide) (by decide)⟩

/-- Helper: one leaky-bucket call keeps the queue length at most capacity. -/
theorem lbStep_bound (cfg : LBConfig) (s : LBState) (now : ℚ)
    (h : (s.queue.length : ℤ) ≤ cfg.capacity) :
    ((lbIsAllowed cfg s now).2.queue.length : ℤ) ≤ cfg.capacity := by
  have hdrop : (s.queue.drop
      (min (ratTrunc ((now - s.last_leak) * cfg.leak_rate))
        (s.queue.length : ℤ)).toNat).length ≤ s.queue.length := by
    rw [List.length_drop]
    omega
  simp only [lbIsAllowed]
  split
  · next hlt =>
    dsimp only
    rw [List.length_append, List.length_singleton]
    push_cast
    omega
  · next hge =>
    dsimp only
    omega

/-- Helper: the queue-length bound holds after every prefix of a trace. -/
theorem lbRun_take_bound (cfg : LBConfig) :
    ∀ (calls : List ℚ) (s : LBState),
      (s.queue.length : ℤ) ≤ cfg.capacity →
      ∀ i : ℕ, ((lbRun cfg s (calls.take i)).queue.length : ℤ) ≤ cfg.capacity := by
  intro calls
  induction calls with
  | nil =>
    intro s h i
    simpa [lbRun] using h
  | cons c rest ih =>
    intro s h i
    match i with
    | 0 => simpa [lbRun] using h
    | (i + 1) =>
      have hrw : lbRun cfg s ((c :: rest).take (i + 1)) =
          lbRun cfg (lbIsAllowed cfg s c).2 (rest.take i) := by
        simp [lbRun, List.take_succ_cons]
      rw [hrw]
      exact ih (lbIsAllowed cfg s c).2 (lbStep_bound cfg s c h) i

/-- C2: a leaky bucket with positive capacity keeps every key's queue length
at most `capacity` after every call of a trace started on the empty queue,
and every call removes entries only from the front of the queue (FIFO),
appending the new timestamp at the tail on admission. -/
theorem leakyBucket_queue_bound_and_fifo
    (cfg : LBConfig) (t0 : ℚ) (calls : List ℚ) (i : ℕ)
    (hcap : 0 < cfg.capacity) :
    ((lbRun cfg (lbBaseline t0) (calls.take i)).queue.length : ℤ) ≤ cfg.capacity ∧
    (∀ (s : LBState) (now : ℚ), ∃ d : ℕ,
      (lbIsAllowed cfg s now).2.queue =
        s.queue.drop d ++ (if (lbIsAllowed cfg s now).1 then [now] else [])) := by
  constructor
  · exact lbRun_take_bound cfg calls (lbBaseline t0)
      (by simp only [lbBaseline, List.length_nil, Nat.cast_zero]; omega) i
  · intro s now
    refine ⟨(min (ratTrunc ((now - s.last_leak) * cfg.leak_rate))
      (s.queue.length : ℤ)).toNat, ?_⟩
    simp only [lbIsAllowed]
    split
    · simp
    · simp

theorem leakyBucket_queue_bound_and_fifo_witness :
    0 < (3:ℤ) ∧
    (((lbRun ⟨3, 1⟩ (lbBaseline 0) ([0, 0, 0, 0].take 4)).queue.length : ℤ) ≤ 3 ∧
      (∀ (s : LBState) (now : ℚ), ∃ d : ℕ,
        (lbIsAllowed ⟨3, 1⟩ s now).2.queue =
          s.queue.drop d ++ (if (lbIsAllowed ⟨3, 1⟩ s now).1 then [now] else []))) :=
  ⟨by decide, leakyBucket_queue_bound_and_fifo ⟨3, 1⟩ 0 [0, 0, 0, 0] 4 (by decide)⟩

/-- Helper: looking a key up after appending its own entry at the tail of a
mapping that did not contain it finds that entry. -/
theorem dictFind_append_self {α : Type} (k : String) (d : α) :
    ∀ m : List (String × α), dictFind k m = none →
      dictFind k (m ++ [(k, d)]) = some d
  | [], _ => by simp [dictFind]
  | (k', v) :: rest, h => by
    by_cases hk : k' = k
    · simp [dictFind, hk] at h
    · simp only [List.cons_append, dictFind, if_neg hk] at h ⊢
      exact dictFind_append_self k d rest h

/-- Helper: a second defaultdict access with the same key and default
returns exactly what the first one returned. -/
theorem dictGet_idem {α : Type} (k : String) (d : α) (m : List (String × α)) :
    dictGet k d (dictGet k d m).2 = dictGet k d m := by
  cases h : dictFind k m with
  | some v => simp [dictGet, h]
  | none => simp [dictGet, h, dictFind_append_self k d m h]

/-- Helper: a defaultdict access on a present key returns the stored value
and leaves the mapping unchanged. -/
theorem dictGet_of_found {α : Type} (k : String) (d v : α) (m : List (String × α))
    (h : dictFind k m = some v) : dictGet k d m = (v, m) := by
  simp [dictGet, h]

/-- C8 (amended): for every strategy, a `get_stats` call on a key already in
the mapping leaves the limiter unchanged, and with an unchanged clock a
repeated `get_stats` call returns the identical snapshot and limiter (the
only mutation ever performed is the defaultdict insertion of the baseline
record on a first access). -/
theorem get_stats_idempotent_and_pure_when_key_present
    (key : String) (now : ℚ)
    (Lfw : FWLimiter) (Lswl : SWLLimiter) (Lswc : SWCLimiter)
    (Ltb : TBLimiter) (Llb : LBLimiter) :
    ((Lfw.get_stats key).2.get_stats key) = Lfw.get_stats key ∧
    (∀ v, dictFind key Lfw.counters = some v → (Lfw.get_stats key).2 = Lfw) ∧
    ((Lswl.get_stats key now).2.get_stats key now) = Lswl.get_stats key now ∧
    (∀ v, dictFind key Lswl.logs = some v → (Lswl.get_stats key now).2 = Lswl) ∧
    ((Lswc.get_stats key now).2.get_stats key now) = Lswc.get_stats key now ∧
    (∀ v, dictFind key Lswc.windows = some v → (Lswc.get_stats key now).2 = Lswc) ∧
    ((Ltb.get_stats key now).2.get_stats key now) = Ltb.get_stats key now ∧
    (∀ v, dictFind key Ltb.buckets = some v → (Ltb.get_stats key now).2 = Ltb) ∧
    ((Llb.get_stats key now).2.get_stats key now) = Llb.get_stats key now ∧
    (∀ v, dictFind key Llb.buckets = some v → (Llb.get_stats key now).2 = Llb) := by
  refine ⟨?_, ?_, ?_, ?_, ?_, ?_, ?_, ?_, ?_, ?_⟩
  · simp only [FWLimiter.get_stats]
    rw [dictGet_idem]
  · intro v h
    simp only [FWLimiter.get_stats, dictGet_of_found key FWState.baseline v Lfw.counters h]
  · simp only [SWLLimiter.get_stats]
    rw [dictGet_idem]
  · intro v h
    simp only [SWLLimiter.get_stats, dictGet_of_found key ([] : List ℚ) v Lswl.logs h]
  · simp only [SWCLimiter.get_stats]
    rw [dictGet_idem]
  · intro v h
    simp only [SWCLimiter.get_stats, dictGet_of_found key SWCState.baseline v Lswc.windows h]
  · simp only [TBLimiter.get_stats]
    rw [dictGet_idem]
  · intro v h
    simp only [TBLimiter.get_stats, dictGet_of_found key (tbBaseline Ltb.cfg now) v Ltb.buckets h]
  · simp only [LBLimiter.get_stats]
    rw [dictGet_idem]
  · intro v h
    simp only [LBLimiter.get_stats, dictGet_of_found key (lbBaseline now) v Llb.buckets h]

theorem get_stats_idempotent_and_pure_when_key_present_witness :
    dictFind "k" [("k", FWState.baseline)] = some FWState.baseline ∧
    ((⟨⟨5, 10⟩, [("k", FWState.baseline)]⟩ : FWLimiter).get_stats "k").2 =
      (⟨⟨5, 10⟩, [("k", FWState.baseline)]⟩ : FWLimiter) :=
  ⟨by decide,
    (get_stats_idempotent_and_pure_when_key_present "k" 0
      ⟨⟨5, 10⟩, [("k", FWState.baseline)]⟩ ⟨⟨3, 5⟩, []⟩ ⟨⟨3, 5⟩, []⟩
      ⟨⟨5, 1⟩, []⟩ ⟨⟨5, 1⟩, []⟩).2.1 FWState.baseline (by decide)⟩

/-- C8 (counterexample): `get_stats` on a never-seen key mutates the
key-to-state mapping — the defaultdict access inserts the baseline record,
so the limiter after the call differs from the limiter before it. -/
theorem fw_get_stats_mutates_mapping_on_fresh_key :
    ((⟨⟨5, 10⟩, []⟩ : FWLimiter).get_stats "alice").2 ≠
      (⟨⟨5, 10⟩, []⟩ : FWLimiter) := by decide

/-- C9 (counterexample): constructing a fixed-window limiter with
`limit = 0` (and a token bucket with `capacity = 0` and negative rate)
succeeds — no error is raised, the invalid configuration is stored, and the
resulting limiter operates, rejecting requests as an ordinary outcome. -/
theorem constructors_no_validation_cx :
    fwInit 0 10 = ⟨0, 10⟩ ∧ tbInit 0 (-1) = ⟨0, -1⟩ ∧
    (fwIsAllowed (fwInit 0 10) FWState.baseline 1).1 = false := by
  refine ⟨rfl, rfl, ?_⟩
  norm_num [fwIsAllowed, fwInit, FWState.baseline]

/-- C9 (amended): no constructor validates its arguments: each stores
whatever numbers it receives, so limiters with non-positive limit/capacity
exist; such a fixed-window limiter denies every request from the baseline
state, and such a token bucket denies every single-token request, in both
cases as an ordinary `false`, not an error. -/
theorem constructors_accept_nonpositive_config
    (limit capacity : ℤ) (window_size rate now : ℚ) (s : TBState)
    (hl : limit ≤ 0) (hcap : capacity ≤ 0) :
    fwInit limit window_size = ⟨limit, window_size⟩ ∧
    swlInit limit window_size = ⟨limit, window_size⟩ ∧
    swcInit limit window_size = ⟨limit, window_size⟩ ∧
    tbInit capacity rate = ⟨capacity, rate⟩ ∧
    lbInit capacity rate = ⟨capacity, rate⟩ ∧
    (∀ t : ℚ, (fwIsAllowed (fwInit limit window_size) FWState.baseline t).1 = false) ∧
    (tbIsAllowed (tbInit capacity rate) s now 1).1 = false := by
  refine ⟨rfl, rfl, rfl, rfl, rfl, ?_, ?_⟩
  · intro t
    have h0 : ¬ ((0:ℤ) < limit) := by omega
    simp [fwIsAllowed, fwInit, FWState.baseline, apply_ite FWState.count, h0]
  · have hcapQ : ((capacity:ℤ):ℚ) ≤ 0 := by exact_mod_cast hcap
    have hmin : min ((capacity:ℤ):ℚ) (s.tokens + (now - s.last_refill) * rate) ≤
        ((capacity:ℤ):ℚ) := min_le_left _ _
    simp only [tbIsAllowed, tbInit]
    rw [if_neg (by push_cast; linarith)]

theorem constructors_accept_nonpositive_config_witness :
    (0:ℤ) ≤ 0 ∧ (-2:ℤ) ≤ 0 ∧
    ((fwIsAllowed (fwInit 0 10) FWState.baseline 3).1 = false ∧
      (tbIsAllowed (tbInit (-2) 1) ⟨0, 0⟩ 3 1).1 = false) :=
  ⟨by decide, by decide,
    ⟨(constructors_accept_nonpositive_config 0 (-2) 10 1 3 ⟨0, 0⟩
        (by decide) (by decide)).2.2.2.2.2.1 3,
      (constructors_accept_nonpositive_config 0 (-2) 10 1 3 ⟨0, 0⟩
        (by decide) (by decide)).2.2.2.2.2.2⟩⟩
